import Mathlib

/-!
Verification development for the DataProtector repository.

The repository provides two lock-free safe-memory-reclamation primitives:

* `DataProtector<Nr>` (the slot-counter protector, SCP): a table of `Nr`
  cache-line-aligned atomic counters, a shared allocation cursor `_last`,
  a thread-local slot index `_mySlot`, the operations `use` / `unUse`
  (via the scope guard `UnUser`) and the writer-side `scan`.

* `DataGuardian<T, maxNrThreads>` (the hazard-snapshot guardian, HSG): a
  two-element snapshot-pointer buffer `_P`, a version selector `_V`, a
  hazard table `_H`, and the operations `lease` / `unlease` / `exchange`
  plus the destructor.

The definitions below are shallow embeddings of those C++ functions.
Pointers are modelled as `Option Nat` (with `none` standing for
`nullptr`), machine `int` counters as `Int`, and the busy-wait loops as
fuel-bounded searches over an externally supplied sequence of
observations (one observed shared state per atomic load the loop makes),
which makes the loops total while keeping every observed value explicit.
-/

namespace DataProtector

/-- State of the slot-counter protector: the shared allocation cursor
`_last` and the counter table `_list`, indexed by the (machine `int`)
slot id exactly as the C++ indexes `_list[id]`. -/
structure PState where
  last : Int
  counters : Int → Int

/-- Pointwise update of the counter table at one slot id. -/
def bump (f : Int → Int) (i d : Int) : Int → Int :=
  fun j => if j = i then f j + d else f j

/-- `DataProtector::unUse(id)`: decrement `_list[id]._count`. -/
def unUse (st : PState) (id : Int) : PState :=
  { st with counters := bump st.counters id (-1) }

/-- The slot-allocation step of `DataProtector::use` when the calling
thread has no slot yet (`_mySlot < 0`): `id = _last++;` followed by
`if (_last > Nr) { _last = 0; }`, run without interference from other
threads.  Returns the id handed out and the new cursor value. -/
def allocStep (Nr : Nat) (last : Int) : Int × Int :=
  (last, if last + 1 > (Nr : Int) then 0 else last + 1)

/-- The ids handed out by `k` successive uninterfered first-time calls to
`DataProtector::use` by `k` distinct threads, starting from cursor value
`last` (the constructor initialises `_last` to `0`). -/
def allocIds (Nr : Nat) : Nat → Int → List Int
  | 0, _ => []
  | k + 1, last =>
      (allocStep Nr last).1 :: allocIds Nr k (allocStep Nr last).2

/-- `DataProtector::use()` for a thread whose thread-local `_mySlot` is
`mySlot`: allocate a slot if `mySlot < 0`, increment the counter of the
chosen slot, and return the new state, the new `_mySlot`, and the id
recorded in the returned `UnUser` guard. -/
def use (Nr : Nat) (st : PState) (mySlot : Int) : PState × Int × Int :=
  let idLast : Int × Int :=
    if mySlot < 0 then allocStep Nr st.last else (mySlot, st.last)
  ({ last := idLast.2, counters := bump st.counters idLast.1 1 },
   idLast.1, idLast.1)

/-- The scope guard `DataProtector::UnUser`: its two data members are the
protector pointer `_prot` (modelled by whether it is non-null) and the
slot id `_id`. -/
structure UnUser where
  protNonNull : Bool
  id : Int

/-- The `UnUser(p, i)` constructor as invoked by `use` (with `p = this`,
hence non-null). -/
def mkUnUser (id : Int) : UnUser :=
  { protNonNull := true, id := id }

/-- The `UnUser` move constructor: the target copies `_prot` and `_id`,
and the source's `_prot` is set to `nullptr`.  Returns (target, source
after the move). -/
def moveUnUser (g : UnUser) : UnUser × UnUser :=
  ({ protNonNull := g.protNonNull, id := g.id },
   { protNonNull := false, id := g.id })

/-- The `~UnUser` destructor: call `_prot->unUse(_id)` exactly when
`_prot != nullptr`. -/
def dtorUnUser (st : PState) (g : UnUser) : PState :=
  if g.protNonNull then unUse st g.id else st

/-- Number of `unUse` calls the destructor of this guard will make. -/
def releases (g : UnUser) : Nat :=
  if g.protNonNull then 1 else 0

/-- One busy-wait loop `while (_list[i]._count > 0) usleep(250);` of
`DataProtector::scan`, over the sequence `f` of values the repeated
atomic load observes: returns the index of the first observation that is
not `> 0`, searching from observation `t`, with at most `fuel` loads. -/
def waitZero (f : Nat → Int) : Nat → Nat → Option Nat
  | 0, _ => none
  | fuel + 1, t => if f t > 0 then waitZero f fuel (t + 1) else some t

/-- The slots `i, i+1, ..., i+n-1` part of `DataProtector::scan`'s
`for` loop: `obs k` is the observation sequence of slot `k`'s counter.
Returns, for each slot in order, the observation index at which its
busy-wait exited. -/
def scanFrom (obs : Nat → Nat → Int) (fuel : Nat) : Nat → Nat → Option (List Nat)
  | _, 0 => some []
  | i, n + 1 =>
      match waitZero (obs i) fuel 0 with
      | none => none
      | some t => (scanFrom obs fuel (i + 1) n).map (fun ts => t :: ts)

/-- `DataProtector::scan()`: for each slot `0 ≤ i < Nr` in order,
busy-wait until slot `i`'s counter is observed `≤ 0`. -/
def scan (Nr : Nat) (obs : Nat → Nat → Int) (fuel : Nat) : Option (List Nat) :=
  scanFrom obs fuel 0 Nr

end DataProtector

namespace DataGuardian

/-- A snapshot pointer `T const*`; `none` stands for `nullptr`, and a
non-null pointer is identified by a `Nat` address. -/
abbrev Ptr := Option Nat

/-- `DataGuardian::isHazard(p)`: scan the hazard table and report whether
some hazard slot `g` satisfies `g != nullptr && g == p`. -/
def isHazard (H : List Ptr) (p : Ptr) : Bool :=
  H.any fun g => g.isSome && decide (g = p)

/-- The snapshot holder of `DataGuardian`: the two-element snapshot
buffer `_P[0], _P[1]` and the version selector `_V ∈ {0, 1}`. -/
structure GCore where
  P0 : Ptr
  P1 : Ptr
  V : Fin 2
deriving DecidableEq

/-- Read `_P[i].ptr`. -/
def getP (c : GCore) (i : Fin 2) : Ptr :=
  if i = 0 then c.P0 else c.P1

/-- Write `_P[i].ptr`. -/
def setP (c : GCore) (i : Fin 2) (p : Ptr) : GCore :=
  if i = 0 then { c with P0 := p } else { c with P1 := p }

/-- The writer's busy-wait `while (isHazard(p)) usleep(250);`, over the
sequence `obs` of hazard tables the repeated scans observe: returns the
index of the first observation in which `p` is not hazarded, searching
from observation `t`, with at most `fuel` scans. -/
def drainWait (obs : Nat → List Ptr) (p : Ptr) : Nat → Nat → Option Nat
  | 0, _ => none
  | fuel + 1, t =>
      if isHazard (obs t) p then drainWait obs p fuel (t + 1) else some t

/-- `DataGuardian::exchange(replacement)` (run under the internal mutex):
read `v = _V`, store the replacement into `_P[1-v]`, flip `_V` to `1-v`,
load the retired pointer `p = _P[v]`, busy-wait until no hazard slot
holds `p` (hazard tables observed along `obs`), then `delete p` and null
out `_P[v]`.  Returns the final snapshot holder and the list of pointers
destroyed (`delete nullptr` destroys nothing). -/
def exchange (c : GCore) (r : Ptr) (obs : Nat → List Ptr) (fuel : Nat) :
    Option (GCore × List Ptr) :=
  let v := c.V
  let c2 : GCore := { setP c (1 - v) r with V := 1 - v }
  let p := getP c2 v
  match drainWait obs p fuel 0 with
  | none => none
  | some _ => some (setP c2 v none, if p.isSome then [p] else [])

/-- `DataGuardian::~DataGuardian` (run under the internal mutex):
busy-wait until no hazard slot holds the live snapshot `_P[_V]`, then
delete it (`delete temp; // OK, if nullptr`) and null out its slot. -/
def dtorGuardian (c : GCore) (obs : Nat → List Ptr) (fuel : Nat) :
    Option (GCore × List Ptr) :=
  let p := getP c c.V
  match drainWait obs p fuel 0 with
  | none => none
  | some _ => some (setP c c.V none, if p.isSome then [p] else [])

/-- Write hazard cell `i` of a hazard table given as a function. -/
def hset (HT : Nat → Ptr) (i : Nat) (p : Ptr) : Nat → Ptr :=
  fun j => if j = i then p else HT j

/-- `DataGuardian::lease(myId)`: the retry loop, with the shared state
the loop's three atomic loads observe supplied by `env` (iteration `k`
reads `_V` at time `3k`, `_P[v]` at time `3k+1`, and re-reads `_V` at
time `3k+2`).  Each iteration loads `v = _V`, loads `p = _P[v]`, stores
`p` into hazard cell `myId`, and re-reads `_V`: on mismatch it clears
the hazard cell and retries, on match it returns `p`.  Returns the
iteration index at which the loop exited, the leased pointer, and the
final hazard table. -/
def lease (env : Nat → GCore) (myId : Nat) :
    Nat → Nat → (Nat → Ptr) → Option (Nat × Ptr × (Nat → Ptr))
  | 0, _, _ => none
  | fuel + 1, k, HT =>
      let v := (env (3 * k)).V
      let p := getP (env (3 * k + 1)) v
      let HT1 := hset HT myId p
      if (env (3 * k + 2)).V ≠ v then
        lease env myId fuel (k + 1) (hset HT1 myId none)
      else
        some (k, p, HT1)

/-- `DataGuardian::unlease(myId)`: clear hazard cell `myId`. -/
def unlease (HT : Nat → Ptr) (myId : Nat) : Nat → Ptr :=
  hset HT myId none

/-!
An interleaved operational model of one reader thread (running
`lease` / `unlease` with `myId = 0`) and one writer thread (running
`exchange` calls, serialised by the internal mutex), with every shared
atomic access of the C++ source a separate step.  Sequentially consistent
interleavings are a subset of the executions the C++ memory model allows
for this code, so any behaviour exhibited here is a behaviour of the
program. -/

/-- Program counter of the reader inside `DataGuardian::lease`:
after the `_V` load of line (XXX), after the `_P[v]` load, after the
hazard store, and holding a validated lease. -/
inductive RSt
  | idle
  | gotV (v : Fin 2)
  | gotP (v : Fin 2) (p : Ptr)
  | stored (v : Fin 2) (p : Ptr)
  | holding (p : Ptr)
deriving DecidableEq

/-- Program counter of the writer inside `DataGuardian::exchange`:
after the `_V` load, after the store to `_P[1-v]`, after the `_V` flip,
after loading the retired pointer, and after an `isHazard` scan that
found no hazard. -/
inductive WSt
  | widle
  | wGotV (v : Fin 2) (r : Ptr)
  | wStored (v : Fin 2)
  | wFlipped (v : Fin 2)
  | wWait (v : Fin 2) (p : Ptr)
  | wSafe (v : Fin 2) (p : Ptr)
deriving DecidableEq

/-- Global state of the interleaved system: the snapshot holder, the
hazard table (one reader, one cell), the multiset of pointers on which
`delete` has been run (the destructor has been entered), and the two
thread program counters. -/
structure Sys where
  core : GCore
  H : List Ptr
  destroyed : List Ptr
  rd : RSt
  wr : WSt
deriving DecidableEq

/-- One atomic step of either thread, labelled by which source line it
executes.  `rReadV` is line 50 of `lease`, `rReadP` line 56, `rStoreH`
line 57, `rCheckV` lines 58-62, `rUnlease` is `unlease`; `wBegin` is
line 74 of `exchange`, `wStoreP` line 75, `wFlipV` line 76, `wLoadOld`
line 85, `wCheck` one `isHazard` scan of line 86, `wFree` lines 90-91. -/
inductive Act
  | rReadV
  | rReadP
  | rStoreH
  | rCheckV
  | rUnlease
  | wBegin (r : Ptr)
  | wStoreP
  | wFlipV
  | wLoadOld
  | wCheck
  | wFree
deriving DecidableEq

/-- The step function: `none` when the action is not enabled in the
current state, otherwise the successor state. -/
def step (s : Sys) : Act → Option Sys
  | .rReadV =>
      match s.rd with
      | .idle => some { s with rd := .gotV s.core.V }
      | _ => none
  | .rReadP =>
      match s.rd with
      | .gotV v => some { s with rd := .gotP v (getP s.core v) }
      | _ => none
  | .rStoreH =>
      match s.rd with
      | .gotP v p => some { s with H := [p], rd := .stored v p }
      | _ => none
  | .rCheckV =>
      match s.rd with
      | .stored v p =>
          if s.core.V ≠ v then some { s with H := [none], rd := .idle }
          else some { s with rd := .holding p }
      | _ => none
  | .rUnlease =>
      match s.rd with
      | .holding _ => some { s with H := [none], rd := .idle }
      | _ => none
  | .wBegin r =>
      match s.wr with
      | .widle => some { s with wr := .wGotV s.core.V r }
      | _ => none
  | .wStoreP =>
      match s.wr with
      | .wGotV v r => some { s with core := setP s.core (1 - v) r, wr := .wStored v }
      | _ => none
  | .wFlipV =>
      match s.wr with
      | .wStored v => some { s with core := { s.core with V := 1 - v }, wr := .wFlipped v }
      | _ => none
  | .wLoadOld =>
      match s.wr with
      | .wFlipped v => some { s with wr := .wWait v (getP s.core v) }
      | _ => none
  | .wCheck =>
      match s.wr with
      | .wWait v p =>
          if isHazard s.H p then some s else some { s with wr := .wSafe v p }
      | _ => none
  | .wFree =>
      match s.wr with
      | .wSafe v p =>
          some { s with
                 destroyed := s.destroyed ++ (if p.isSome then [p] else []),
                 core := setP s.core v none,
                 wr := .widle }
      | _ => none

/-- Run a sequence of steps; fails if any action is not enabled. -/
def run (s : Sys) : List Act → Option Sys
  | [] => some s
  | a :: rest =>
      match step s a with
      | none => none
      | some t => run t rest

/-- Initial state for the use-after-free scenario: snapshot `A = some 1`
is live in `_P[0]`, `_V = 0`, the hazard cell is clear, nothing has been
destroyed, both threads are at their top level. -/
def abaInit : Sys :=
  { core := { P0 := some 1, P1 := none, V := 0 },
    H := [none],
    destroyed := [],
    rd := .idle,
    wr := .widle }

/-- The interleaving that defeats the version-recheck of `lease`:
the reader loads `_V = 0` and `p = _P[0] = A`, then stalls before its
hazard store; the writer completes `exchange(B)` (flipping `_V` to `1`
and deleting `A`, the hazard cell still being clear) and then completes
`exchange(C)` (flipping `_V` back to `0` and deleting `B`); the reader
resumes, publishes `A` in its hazard cell, re-reads `_V = 0`, sees the
value it read first, and validates a lease on the already-deleted `A`. -/
def abaTrace : List Act :=
  [.rReadV, .rReadP,
   .wBegin (some 2), .wStoreP, .wFlipV, .wLoadOld, .wCheck, .wFree,
   .wBegin (some 3), .wStoreP, .wFlipV, .wLoadOld, .wCheck, .wFree,
   .rStoreH, .rCheckV]

/-- The state `abaTrace` ends in: snapshot `C = some 3` is live, the
reader holds a validated lease on `A = some 1`, its hazard cell still
announces `A`, and `A` (as well as `B = some 2`) has been deleted. -/
def abaFinal : Sys :=
  { core := { P0 := some 3, P1 := none, V := 0 },
    H := [some 1],
    destroyed := [some 1, some 2],
    rd := .holding (some 1),
    wr := .widle }

end DataGuardian

namespace DataProtector

lemma bump_cancel (f : Int → Int) (i : Int) : bump (bump f i 1) i (-1) = f := by
  funext j
  by_cases h : j = i <;> simp [bump, h]

/-- Claim C6: a `use()` followed by dropping the returned guard (which
calls `unUse` on the very slot id recorded in the guard) restores every
slot counter to its prior value, for every slot-table state and every
thread-local slot value; in particular the all-counters-zero quiescent
state is restored by every balanced acquire/release pair. -/
theorem use_unUse_roundtrip (Nr : Nat) (st : PState) (mySlot : Int) :
    (unUse (use Nr st mySlot).1 (use Nr st mySlot).2.2).counters = st.counters
      ∧ ((∀ j, st.counters j = 0) →
          ∀ j, (unUse (use Nr st mySlot).1 (use Nr st mySlot).2.2).counters j = 0) := by
  have h : (unUse (use Nr st mySlot).1 (use Nr st mySlot).2.2).counters
      = st.counters := by
    simp only [use, unUse]
    exact bump_cancel _ _
  exact ⟨h, fun hz j => by rw [h]; exact hz j⟩

/-- Claim C7: the guard releases exactly once over its lifetime: a guard
fresh from `use` releases once and its destructor performs the `unUse`
of its slot; the move constructor transfers the whole release duty to
the target (same slot id, same release count) and leaves the source
inert, so destroying the moved-from source changes nothing. -/
theorem unUser_releases_once (st : PState) (i : Int) (g : UnUser) :
    releases (mkUnUser i) = 1 ∧
    dtorUnUser st (mkUnUser i) = unUse st i ∧
    releases (moveUnUser g).1 + releases (moveUnUser g).2 = releases g ∧
    (moveUnUser g).1.id = g.id ∧
    dtorUnUser st (moveUnUser g).1 = dtorUnUser st g ∧
    dtorUnUser st (moveUnUser g).2 = st := by
  cases g with
  | mk pr id => cases pr <;> simp [releases, mkUnUser, moveUnUser, dtorUnUser]

/-- Claim C2 (falsified by the code): the slot ids handed out by the
lazy allocation of `DataProtector::use` are not always in `[0, Nr)`:
with `Nr = 2` and three distinct threads allocating one after the other
without any interference, the cursor path is the uninterfered one and
the third thread receives id `2 = Nr`, one past the end of `_list`
(the wrap check `if (_last > Nr)` fires only after the cursor has
already exceeded `Nr`, so the value `Nr` itself is handed out). -/
theorem alloc_out_of_bounds :
    allocIds 2 3 0 = [0, 1, 2] ∧
    ¬ (∀ id ∈ allocIds 2 3 0, 0 ≤ id ∧ id < 2) := by decide

lemma waitZero_spec (f : Nat → Int) :
    ∀ fuel t0 t, waitZero f fuel t0 = some t →
      t0 ≤ t ∧ f t ≤ 0 ∧ ∀ u, t0 ≤ u → u < t → 0 < f u := by
  intro fuel
  induction fuel with
  | zero => intro t0 t h; simp [waitZero] at h
  | succ n ih =>
      intro t0 t h
      simp only [waitZero] at h
      by_cases hf : f t0 > 0
      · rw [if_pos hf] at h
        obtain ⟨h1, h2, h3⟩ := ih (t0 + 1) t h
        refine ⟨by omega, h2, fun u hu1 hu2 => ?_⟩
        by_cases hu : u = t0
        · exact hu ▸ hf
        · exact h3 u (by omega) hu2
      · rw [if_neg hf] at h
        cases h
        exact ⟨le_refl _, by omega, fun u h1 h2 => absurd h1 (by omega)⟩

lemma waitZero_immediate (f : Nat → Int) (fuel : Nat) (h : ¬ f 0 > 0) :
    waitZero f (fuel + 1) 0 = some 0 := by
  simp [waitZero, h]

lemma scanFrom_spec (obs : Nat → Nat → Int) (fuel : Nat) :
    ∀ n i ts, scanFrom obs fuel i n = some ts →
      ts.length = n ∧
      ∀ j, j < n → ∃ t, ts[j]? = some t ∧ waitZero (obs (i + j)) fuel 0 = some t := by
  intro n
  induction n with
  | zero =>
      intro i ts h
      simp only [scanFrom] at h
      cases h
      exact ⟨rfl, by omega⟩
  | succ m ih =>
      intro i ts h
      simp only [scanFrom] at h
      cases hw : waitZero (obs i) fuel 0 with
      | none => rw [hw] at h; simp at h
      | some t =>
          rw [hw] at h
          cases hr : scanFrom obs fuel (i + 1) m with
          | none => rw [hr] at h; simp at h
          | some ts2 =>
              rw [hr] at h

              obtain ⟨hl, hj⟩ := ih (i + 1) ts2 hr
              simp only [Option.map_some] at h
              cases h
              refine ⟨by simp [hl], fun j hj2 => ?_⟩
              cases j with
              | zero => exact ⟨t, by simp, by simpa using hw⟩
              | succ j2 =>
                  obtain ⟨t2, h1, h2⟩ := hj j2 (by omega)
                  refine ⟨t2, by simpa using h1, ?_⟩
                  have : i + (j2 + 1) = i + 1 + j2 := by omega
                  rw [this]
                  exact h2

lemma scanFrom_immediate (obs : Nat → Nat → Int) (fuel : Nat) (hf : 0 < fuel) :
    ∀ n i, (∀ k, k < n → ¬ obs (i + k) 0 > 0) →
      scanFrom obs fuel i n = some (List.replicate n 0) := by
  intro n
  induction n with
  | zero => intro i _; simp [scanFrom]
  | succ m ih =>
      intro i hz
      obtain ⟨fm, rfl⟩ : ∃ fm, fuel = fm + 1 := ⟨fuel - 1, by omega⟩
      simp only [scanFrom]
      rw [waitZero_immediate (obs i) fm (by simpa using hz 0 (by omega))]
      rw [ih (i + 1) (fun k hk => by
        have : i + 1 + k = i + (k + 1) := by omega
        rw [this]; exact hz (k + 1) (by omega))]
      simp [List.replicate_succ]

/-- Claim C5: when `scan` returns, each slot's counter has been observed
equal to zero at least once during the call (taking counters to be
non-negative, as the data model of the spec states) and every earlier
observation of that slot was positive, slots need not be simultaneously
zero; and whenever every slot counter is zero at its first observation
(no active readers), `scan` returns immediately — each busy-wait exits
at its very first load, with zero sleeps — and, being a function of its
observations, does so on every repeated call with such observations. -/
theorem scan_observes_zero (Nr : Nat) (obs : Nat → Nat → Int) (fuel : Nat)
    (hnn : ∀ k t, 0 ≤ obs k t) :
    (∀ ts, scan Nr obs fuel = some ts →
        ts.length = Nr ∧
        ∀ k, k < Nr →
          ∃ t, ts[k]? = some t ∧ obs k t = 0 ∧ ∀ u, u < t → 0 < obs k u) ∧
    ((∀ k, k < Nr → obs k 0 = 0) → 0 < fuel →
        scan Nr obs fuel = some (List.replicate Nr 0)) := by
  constructor
  · intro ts h
    obtain ⟨hl, hj⟩ := scanFrom_spec obs fuel Nr 0 ts h
    refine ⟨hl, fun k hk => ?_⟩
    obtain ⟨t, h1, h2⟩ := hj k hk
    obtain ⟨_, h3, h4⟩ := waitZero_spec (obs (0 + k)) fuel 0 t h2
    simp only [Nat.zero_add] at h3 h4
    exact ⟨t, h1, le_antisymm h3 (hnn k t), fun u hu => h4 u (by omega) hu⟩
  · intro hz hf
    exact scanFrom_immediate obs fuel hf Nr 0 (fun k hk => by
      simp only [Nat.zero_add]
      rw [hz k hk]
      omega)

/-- Witness for `scan_observes_zero` at `Nr = 2`, the constant-zero
observation sequence and `fuel = 3`. -/
theorem scan_observes_zero_witness :
    scan 2 (fun _ _ => (0 : Int)) 3 = some (List.replicate 2 0) :=
  (scan_observes_zero 2 (fun _ _ => 0) 3 (fun _ _ => le_refl 0)).2
    (fun _ _ => rfl) (by omega)

end DataProtector

namespace DataGuardian

/-- Claim C10: `isHazard(p)` is true exactly when `p` is non-null and
some hazard slot equals `p`; in particular `isHazard(nullptr)` is always
false, whatever the hazard table holds. -/
theorem isHazard_spec (H : List Ptr) (p : Ptr) :
    (isHazard H p = true ↔ p ≠ none ∧ p ∈ H) ∧ isHazard H none = false := by
  constructor
  · simp only [isHazard, List.any_eq_true, Bool.and_eq_true, decide_eq_true_eq]
    constructor
    · rintro ⟨g, hg, hs, rfl⟩
      exact ⟨Option.isSome_iff_ne_none.mp hs, hg⟩
    · rintro ⟨hp, hm⟩
      exact ⟨p, hm, Option.isSome_iff_ne_none.mpr hp, rfl⟩
  · simp only [isHazard, List.any_eq_false, Bool.and_eq_true, not_and,
               decide_eq_true_eq]
    intro x _ hx
    exact Option.isSome_iff_ne_none.mp hx

lemma getP_setP_same (c : GCore) (i : Fin 2) (p : Ptr) :
    getP (setP c i p) i = p := by
  fin_cases i <;> simp [getP, setP]

lemma getP_setP_ne (c : GCore) (i j : Fin 2) (p : Ptr) (h : i ≠ j) :
    getP (setP c i p) j = getP c j := by
  fin_cases i <;> fin_cases j <;> simp_all [getP, setP]

lemma setP_V (c : GCore) (i : Fin 2) (p : Ptr) : (setP c i p).V = c.V := by
  fin_cases i <;> simp [setP]

lemma getP_withV (c : GCore) (w i : Fin 2) : getP { c with V := w } i = getP c i := by
  simp [getP]

lemma one_sub_ne (v : Fin 2) : (1 - v) ≠ v := by
  fin_cases v <;> decide

lemma drainWait_spec (obs : Nat → List Ptr) (p : Ptr) :
    ∀ fuel t0 t, drainWait obs p fuel t0 = some t →
      t0 ≤ t ∧ isHazard (obs t) p = false ∧
      ∀ u, t0 ≤ u → u < t → isHazard (obs u) p = true := by
  intro fuel
  induction fuel with
  | zero => intro t0 t h; simp [drainWait] at h
  | succ n ih =>
      intro t0 t h
      simp only [drainWait] at h
      by_cases hh : isHazard (obs t0) p
      · rw [if_pos hh] at h
        obtain ⟨h1, h2, h3⟩ := ih (t0 + 1) t h
        refine ⟨by omega, h2, fun u hu1 hu2 => ?_⟩
        by_cases hu : u = t0
        · exact hu ▸ hh
        · exact h3 u (by omega) hu2
      · rw [if_neg hh] at h
        cases h
        exact ⟨le_refl _, by simpa using hh,
               fun u h1 h2 => absurd h1 (by omega)⟩

/-- The snapshot holder after the publication half of `exchange`
(replacement stored into the inactive slot, version flipped). -/
lemma exchange_eq (c : GCore) (r : Ptr) (obs : Nat → List Ptr) (fuel : Nat)
    (c2 : GCore) (d : List Ptr)
    (hex : exchange c r obs fuel = some (c2, d)) :
    ∃ t, drainWait obs (getP c c.V) fuel 0 = some t ∧
      c2 = setP { setP c (1 - c.V) r with V := 1 - c.V } c.V none ∧
      d = (if (getP c c.V).isSome then [getP c c.V] else []) := by
  have hp : getP { setP c (1 - c.V) r with V := 1 - c.V } c.V = getP c c.V := by
    rw [getP_withV, getP_setP_ne c _ _ r (one_sub_ne c.V)]
  simp only [exchange, hp] at hex
  cases ht : drainWait obs (getP c c.V) fuel 0 with
  | none => rw [ht] at hex; simp at hex
  | some t =>
      rw [ht] at hex
      simp only [Option.some_inj] at hex
      cases hex
      exact ⟨t, rfl, rfl, rfl⟩

/-- Claim C3: postcondition of `exchange(r)` from any state whose live
snapshot `_P[_V]` is the (non-null) pointer `a`: on return the version
selector has flipped to `1 - v`, the new live slot `_P[1-v]` holds `r`,
the retired slot `_P[v]` has been nulled, and the retired snapshot has
been deleted exactly once. -/
theorem exchange_postcondition (c : GCore) (r : Ptr) (obs : Nat → List Ptr)
    (fuel : Nat) (a : Nat) (c2 : GCore) (d : List Ptr)
    (hlive : getP c c.V = some a)
    (hex : exchange c r obs fuel = some (c2, d)) :
    c2.V = 1 - c.V ∧
    getP c2 (1 - c.V) = r ∧
    getP c2 c.V = none ∧
    d = [some a] ∧
    d.count (some a) = 1 := by
  obtain ⟨t, _, hc2, hd⟩ := exchange_eq c r obs fuel c2 d hex
  subst hc2
  rw [hlive] at hd
  refine ⟨?_, ?_, ?_, ?_, ?_⟩
  · rw [setP_V]
  · rw [getP_setP_ne _ _ _ _ (Ne.symm (one_sub_ne c.V)), getP_withV,
        getP_setP_same]
  · exact getP_setP_same _ _ _
  · simpa using hd
  · simp at hd
    simp [hd]

/-- Witness for `exchange_postcondition`: state `{P0 := some 5,
P1 := none, V := 0}`, replacement `some 7`, an empty-hazard observation
sequence and one scan of fuel. -/
theorem exchange_postcondition_witness :
    ({ P0 := none, P1 := some 7, V := 1 } : GCore).V =
        1 - ({ P0 := some 5, P1 := none, V := 0 } : GCore).V ∧
    getP { P0 := none, P1 := some 7, V := 1 }
        (1 - ({ P0 := some 5, P1 := none, V := 0 } : GCore).V) = some 7 ∧
    getP { P0 := none, P1 := some 7, V := 1 }
        ({ P0 := some 5, P1 := none, V := 0 } : GCore).V = none ∧
    ([some 5] : List Ptr) = [some 5] ∧
    ([some 5] : List Ptr).count (some 5) = 1 :=
  exchange_postcondition { P0 := some 5, P1 := none, V := 0 } (some 7)
    (fun _ => [none]) 1 5 { P0 := none, P1 := some 7, V := 1 } [some 5]
    (by decide) (by decide)

lemma hset_same (HT : Nat → Ptr) (i : Nat) (p : Ptr) : hset HT i p i = p := by
  simp [hset]

lemma hset_ne (HT : Nat → Ptr) (i : Nat) (p : Ptr) (j : Nat) (h : j ≠ i) :
    hset HT i p j = HT j := by
  simp [hset, h]

lemma lease_loop_spec (env : Nat → GCore) (myId : Nat) :
    ∀ fuel k0 HT0 k p HT, lease env myId fuel k0 HT0 = some (k, p, HT) →
      k0 ≤ k ∧
      (∀ j, k0 ≤ j → j < k → (env (3 * j + 2)).V ≠ (env (3 * j)).V) ∧
      (env (3 * k + 2)).V = (env (3 * k)).V ∧
      p = getP (env (3 * k + 1)) ((env (3 * k)).V) ∧
      HT myId = p ∧
      (∀ j, j ≠ myId → HT j = HT0 j) := by
  intro fuel
  induction fuel with
  | zero => intro k0 HT0 k p HT h; simp [lease] at h
  | succ n ih =>
      intro k0 HT0 k p HT h
      simp only [lease] at h
      by_cases hv : (env (3 * k0 + 2)).V ≠ (env (3 * k0)).V
      · rw [if_pos hv] at h
        obtain ⟨h1, h2, h3, h4, h5, h6⟩ := ih (k0 + 1) _ k p HT h
        refine ⟨by omega, fun j hj1 hj2 => ?_, h3, h4, h5, fun j hj => ?_⟩
        · by_cases hjk : j = k0
          · exact hjk ▸ hv
          · exact h2 j (by omega) hj2
        · rw [h6 j hj, hset_ne _ _ _ _ hj, hset_ne _ _ _ _ hj]
      · rw [if_neg hv] at h
        simp only [Option.some_inj, Prod.mk.injEq] at h
        obtain ⟨rfl, rfl, rfl⟩ := h
        push_neg at hv
        exact ⟨le_refl _, fun j hj1 hj2 => absurd hj1 (by omega), hv, rfl,
               hset_same _ _ _, fun j hj => hset_ne _ _ _ _ hj⟩

/-- Claim C4: postcondition of `lease(myId)`: the returned pointer `p`
was loaded from `_P[v]` for a version `v` that was read and then
re-validated unchanged at the exit iteration, every earlier iteration
retried precisely because its re-read of `_V` differed (clearing the
hazard cell on the way), and on return hazard cell `myId` holds exactly
the returned pointer while every other hazard cell is untouched. -/
theorem lease_postcondition (env : Nat → GCore) (myId fuel k : Nat) (p : Ptr)
    (HT0 HT : Nat → Ptr)
    (h : lease env myId fuel 0 HT0 = some (k, p, HT)) :
    (∀ j, j < k → (env (3 * j + 2)).V ≠ (env (3 * j)).V) ∧
    (env (3 * k + 2)).V = (env (3 * k)).V ∧
    p = getP (env (3 * k + 1)) ((env (3 * k)).V) ∧
    HT myId = p ∧
    (∀ j, j ≠ myId → HT j = HT0 j) := by
  obtain ⟨_, h2, h3, h4, h5, h6⟩ := lease_loop_spec env myId fuel 0 HT0 k p HT h
  exact ⟨fun j hj => h2 j (by omega) hj, h3, h4, h5, h6⟩

/-- Witness for `lease_postcondition`: a constant environment with live
snapshot `some 4` in `_P[0]`, thread id `0`, one unit of fuel. -/
theorem lease_postcondition_witness :
    (∀ j, j < 0 →
        ((fun _ => ({ P0 := some 4, P1 := none, V := 0 } : GCore)) (3 * j + 2)).V ≠
        ((fun _ => ({ P0 := some 4, P1 := none, V := 0 } : GCore)) (3 * j)).V) ∧
    ((fun _ => ({ P0 := some 4, P1 := none, V := 0 } : GCore)) 2).V =
        ((fun _ => ({ P0 := some 4, P1 := none, V := 0 } : GCore)) 0).V ∧
    (some 4 : Ptr) =
        getP ((fun _ => ({ P0 := some 4, P1 := none, V := 0 } : GCore)) 1)
          (((fun _ => ({ P0 := some 4, P1 := none, V := 0 } : GCore)) 0).V) ∧
    hset (fun _ => none) 0 (some 4) 0 = some 4 ∧
    (∀ j, j ≠ 0 → hset (fun _ => none) 0 (some 4) j = none) :=
  lease_postcondition (fun _ => { P0 := some 4, P1 := none, V := 0 }) 0 1 0
    (some 4) (fun _ => none) (hset (fun _ => none) 0 (some 4)) rfl

/-- Claim C8: postcondition of the destructor `~DataGuardian`: on return
the live slot `_P[_V]` has been nulled, the final live snapshot (when
non-null) has been deleted exactly once (and nothing is deleted when it
was null), and the deletion happened at an observation at which no
hazard slot referenced that snapshot, every earlier observation of the
wait having shown a hazard still referencing it. -/
theorem dtor_postcondition (c : GCore) (obs : Nat → List Ptr) (fuel : Nat)
    (c2 : GCore) (d : List Ptr)
    (h : dtorGuardian c obs fuel = some (c2, d)) :
    getP c2 c.V = none ∧
    (∀ a, getP c c.V = some a → d = [some a] ∧ d.count (some a) = 1) ∧
    (getP c c.V = none → d = []) ∧
    (∃ t, drainWait obs (getP c c.V) fuel 0 = some t ∧
        isHazard (obs t) (getP c c.V) = false ∧
        ∀ u, u < t → isHazard (obs u) (getP c c.V) = true) := by
  simp only [dtorGuardian] at h
  cases ht : drainWait obs (getP c c.V) fuel 0 with
  | none => rw [ht] at h; simp at h
  | some t =>
      rw [ht] at h
      simp only [Option.some_inj, Prod.mk.injEq] at h
      obtain ⟨rfl, rfl⟩ := h
      obtain ⟨_, hz, hpos⟩ := drainWait_spec obs (getP c c.V) fuel 0 t ht
      refine ⟨getP_setP_same _ _ _, fun a ha => ?_, fun ha => ?_, t, rfl, hz,
              fun u hu => hpos u (by omega) hu⟩
      · rw [ha]; simp
      · rw [ha]; simp

/-- Witness for `dtor_postcondition`: live snapshot `some 3` in
`_P[0]`, an empty hazard table throughout, one scan of fuel. -/
theorem dtor_postcondition_witness :
    getP { P0 := none, P1 := none, V := 0 }
        ({ P0 := some 3, P1 := none, V := 0 } : GCore).V = none ∧
    (∀ a, getP { P0 := some 3, P1 := none, V := 0 }
        ({ P0 := some 3, P1 := none, V := 0 } : GCore).V = some a →
        ([some 3] : List Ptr) = [some a] ∧
        ([some 3] : List Ptr).count (some a) = 1) ∧
    (getP { P0 := some 3, P1 := none, V := 0 }
        ({ P0 := some 3, P1 := none, V := 0 } : GCore).V = none →
        ([some 3] : List Ptr) = []) ∧
    (∃ t, drainWait (fun _ => [none])
        (getP { P0 := some 3, P1 := none, V := 0 }
          ({ P0 := some 3, P1 := none, V := 0 } : GCore).V) 1 0 = some t ∧
        isHazard ((fun _ : Nat => ([none] : List Ptr)) t)
          (getP { P0 := some 3, P1 := none, V := 0 }
            ({ P0 := some 3, P1 := none, V := 0 } : GCore).V) = false ∧
        ∀ u, u < t →
          isHazard ((fun _ : Nat => ([none] : List Ptr)) u)
            (getP { P0 := some 3, P1 := none, V := 0 }
              ({ P0 := some 3, P1 := none, V := 0 } : GCore).V) = true) :=
  dtor_postcondition { P0 := some 3, P1 := none, V := 0 } (fun _ => [none]) 1
    { P0 := none, P1 := none, V := 0 } [some 3] (by decide)

/-- Claim C9: `exchange(nullptr)` is accepted from every state: on
return the live snapshot slot `_P[_V]` holds null, the prior snapshot
was retired and deleted (nothing is deleted when it was already null),
a hazard slot holding null never contributes to the writer's wait
(prepending a null hazard cell leaves `isHazard` unchanged, so the
drain never waits on a reader whose hazard cell holds null), and a
`lease` issued against the resulting state returns null on its first
iteration. -/
theorem exchange_null_postcondition (c : GCore) (obs : Nat → List Ptr)
    (fuel : Nat) (c2 : GCore) (d : List Ptr)
    (hex : exchange c none obs fuel = some (c2, d)) :
    getP c2 c2.V = none ∧
    d = (if (getP c c.V).isSome then [getP c c.V] else []) ∧
    (∀ H p, isHazard (none :: H) p = isHazard H p) ∧
    (∀ HT0 myId, lease (fun _ => c2) myId 1 0 HT0 =
        some (0, none, hset HT0 myId none)) := by
  obtain ⟨t, _, hc2, hd⟩ := exchange_eq c none obs fuel c2 d hex
  have hnull : getP c2 c2.V = none := by
    subst hc2
    rw [setP_V, getP_setP_ne _ _ _ _ (Ne.symm (one_sub_ne c.V)), getP_withV,
        getP_setP_same]
  refine ⟨hnull, hd, fun H p => by simp [isHazard], fun HT0 myId => ?_⟩
  simp only [lease]
  rw [if_neg (by simp), hnull]

/-- Witness for `exchange_null_postcondition`: state with live snapshot
`some 5` in `_P[0]`, an empty hazard table, one scan of fuel. -/
theorem exchange_null_postcondition_witness :
    getP { P0 := none, P1 := none, V := 1 }
        ({ P0 := none, P1 := none, V := 1 } : GCore).V = none ∧
    ([some 5] : List Ptr) =
      (if (getP { P0 := some 5, P1 := none, V := 0 }
            ({ P0 := some 5, P1 := none, V := 0 } : GCore).V).isSome
       then [getP { P0 := some 5, P1 := none, V := 0 }
              ({ P0 := some 5, P1 := none, V := 0 } : GCore).V]
       else []) ∧
    (∀ H p, isHazard (none :: H) p = isHazard H p) ∧
    (∀ HT0 myId,
        lease (fun _ => ({ P0 := none, P1 := none, V := 1 } : GCore)) myId 1 0 HT0 =
        some (0, none, hset HT0 myId none)) :=
  exchange_null_postcondition { P0 := some 5, P1 := none, V := 0 }
    (fun _ => [none]) 1 { P0 := none, P1 := none, V := 1 } [some 5] (by decide)

/-- Claim C1 (falsified by the code): the interleaving `abaTrace` is a
sequentially consistent execution of one reader running `lease(0)`
against one writer running `exchange(B)` then `exchange(C)` (every step
enabled, as `run` returning `some` shows), after which the reader holds
a validated lease on snapshot `A = some 1` — its hazard cell announces
`A` and `lease` has returned `A` — even though `A` has already been
deleted: the reader loaded `_V = 0` and `p = _P[0] = A` before the first
exchange, and its re-validation of `_V` at line (YYY) cannot tell the
initial `_V = 0` from the `_V = 0` restored by the second exchange, so
the version re-check passes with a stale, already-destroyed pointer. -/
theorem guardian_lease_use_after_free :
    run abaInit abaTrace = some abaFinal ∧
    abaFinal.rd = RSt.holding (some 1) ∧
    some 1 ∈ abaFinal.destroyed ∧
    isHazard abaFinal.H (some 1) = true := by decide

end DataGuardian

